import Mathlib

/-!
# Verification of the integration-definition and version-bump subsystems

Shallow embedding of:
* the `IntegrationDefinition` construction/validation pipeline
  (zod schemas `integrationDefinitionSchema`, `formatIntegrationDefinition`,
  the `IntegrationDefinition` constructor);
* the `depsynky` `bump-versions` command (`promptJump` answers modelled as a
  function from package name to chosen jump, `semver.inc` modelled per
  standard semantic-versioning rules, manifest writes modelled as an explicit
  disk map plus a write log).

Records (JS objects) with string keys are embedded as association lists
`List (String × _)`; an absent/`undefined` field is `Option.none`.
-/

/- ===================== semver / bump-versions model ===================== -/

/-- A parsed core semantic version `major.minor.patch`. -/
structure Semver where
  major : Nat
  minor : Nat
  patch : Nat
deriving Repr, DecidableEq

def renderSemver (v : Semver) : String :=
  toString v.major ++ "." ++ toString v.minor ++ "." ++ toString v.patch

/-- Split a character list on `.` separators. -/
def splitOnDot : List Char → List (List Char)
  | [] => [[]]
  | c :: rest =>
    let r := splitOnDot rest
    if c = '.' then [] :: r
    else
      match r with
      | [] => [[c]]
      | g :: gs => (c :: g) :: gs

/-- Read a nonempty all-digit character list as a number. -/
def digitsToNat? (cs : List Char) : Option Nat :=
  if cs.isEmpty then Option.none
  else cs.foldl
    (fun acc c =>
      match acc with
      | Option.none => Option.none
      | Option.some n => if c.isDigit then some (n * 10 + (c.toNat - 48)) else Option.none)
    (some 0)

/-- Parse a core `x.y.z` version string. -/
def parseSemver (s : String) : Option Semver :=
  match (splitOnDot s.toList).map digitsToNat? with
  | [some x, some y, some z] => some ⟨x, y, z⟩
  | _ => none

/-- The `VersionJump` union type of `bump-versions.ts`:
`'major' | 'minor' | 'patch' | 'none'`. -/
inductive VersionJump where
  | major
  | minor
  | patch
  | none
deriving Repr, DecidableEq

def jumpName : VersionJump → String
  | .major => "major"
  | .minor => "minor"
  | .patch => "patch"
  | .none => "none"

/-- Modelled from the spec: the third-party `semver` library's `inc` (its
code is not part of this repository), which the spec pins to "standard
semantic-versioning rules" — bump the chosen component, reset the lower
ones; `null` (here `Option.none`) on an unparseable version or on a release
type that is not an increment. -/
def semverInc (s : String) (j : VersionJump) : Option String :=
  match parseSemver s with
  | Option.none => Option.none
  | Option.some v =>
    match j with
    | .major => some (renderSemver ⟨v.major + 1, 0, 0⟩)
    | .minor => some (renderSemver ⟨v.major, v.minor + 1, 0⟩)
    | .patch => some (renderSemver ⟨v.major, v.minor, v.patch + 1⟩)
    | .none => Option.none

/-- The fields of a package manifest used by `bump-versions.ts`. -/
structure PackageJson where
  name : String
  version : String
  «private» : Bool
deriving Repr, DecidableEq

/-- An entry of `targetPackages`: a manifest path together with its content. -/
structure TargetPackage where
  path : String
  content : PackageJson
deriving Repr, DecidableEq

/-- Modelled from the spec: `utils.pnpm.versions` (its source is not among
the given files) — the name → version map of the target packages, built
like a JS object (later entries for the same key overwrite). -/
def assocSet (k v : String) : List (String × String) → List (String × String)
  | [] => [(k, v)]
  | (k', v') :: rest => if k' = k then (k, v) :: rest else (k', v') :: assocSet k v rest

def pnpmVersions (pkgs : List TargetPackage) : List (String × String) :=
  pkgs.foldl (fun acc p => assocSet p.content.name p.content.version acc) []

/-- Modelled from the spec: `utils.pkgjson.update(path, { version })` (its
source is not among the given files) — the CLI "reads/writes
`package.json`-equivalent manifests in place", so the manifest at `path` is
rewritten on disk with the new version. -/
def updateManifest (path version : String) :
    List (String × PackageJson) → List (String × PackageJson)
  | [] => []
  | (p, c) :: rest =>
    if p = path then (p, { c with version := version }) :: updateManifest path version rest
    else (p, c) :: updateManifest path version rest

/-- The mutable state threaded through the `bumpVersion` pass: the manifests
on disk, a log of the `pkgjson.update` writes performed (path, new version),
and the in-memory `targetVersions` map. -/
structure BumpState where
  manifests : List (String × PackageJson)
  writes : List (String × String)
  targetVersions : List (String × String)
deriving Repr, DecidableEq

/-- Outcome of a `bumpVersion` invocation: the error thrown (if any) and the
state reached when the invocation returned or threw.  A throw does not undo
writes already performed. -/
structure BumpResult where
  error : Option String
  state : BumpState
deriving Repr, DecidableEq

/-- The `for` loop of `bumpVersion`: skip private packages, ask for a jump
(`jumps` maps a package name to the interactive answer), skip on `none`,
throw `DepSynkyError` when `semver.inc` returns `null`, otherwise record the
target version and rewrite the manifest on disk. -/
def bumpLoop (jumps : String → VersionJump) :
    List TargetPackage → BumpState → BumpResult
  | [], st => ⟨Option.none, st⟩
  | pkg :: rest, st =>
    if pkg.content.«private» then bumpLoop jumps rest st
    else
      let jump := jumps pkg.content.name
      if jump = VersionJump.none then bumpLoop jumps rest st
      else
        match semverInc pkg.content.version jump with
        | Option.none => ⟨some ("Invalid version jump: " ++ jumpName jump), st⟩
        | Option.some next =>
          bumpLoop jumps rest
            { manifests := updateManifest pkg.path next st.manifests
              writes := st.writes ++ [(pkg.path, next)]
              targetVersions := assocSet pkg.content.name next st.targetVersions }

/-- `bumpVersion` on an already-resolved list of target packages (the
`findReferences` resolution and the trailing `listVersions`/`syncVersions`
reporting steps are outside this model).  The disk initially holds exactly
the target packages' manifests. -/
def bumpVersion (pkgs : List TargetPackage) (jumps : String → VersionJump) : BumpResult :=
  bumpLoop jumps pkgs
    { manifests := pkgs.map (fun p => (p.path, p.content))
      writes := []
      targetVersions := pnpmVersions pkgs }

/- ================= schema declarations and JSON-Schema ================== -/

/-- Modelled from the spec: the repository imports `SchemaDefinition` and
`schemaDefinitionToJsonSchema` from a `./schema` module that is not among the
given sources.  Per the spec's glossary, a schema declaration is "a
user-authored description of a data shape"; it is embedded as its named
fields, each marked required or optional. -/
structure SchemaDecl where
  fields : List (String × Bool)
deriving Repr, DecidableEq

/-- A JSON-Schema object as far as the manifest pipeline observes it: its
property names and its list of required property names (`schemaSchema` is a
passthrough object, so validation never inspects deeper). -/
structure JsonSchema where
  properties : List String
  required : List String
deriving Repr, DecidableEq

/-- Modelled from the spec: `schemaDefinitionToJsonSchema`, the translation of
a schema declaration "into a standard interchange schema format" — each
declared field becomes a JSON-Schema property, the required ones are listed
under `required`. -/
def schemaDefinitionToJsonSchema (d : SchemaDecl) : JsonSchema :=
  { properties := d.fields.map Prod.fst
    required := (d.fields.filter (fun f => f.2)).map Prod.fst }

/-- Modelled from the spec: the reverse translation ("translating a schema
declaration to JSON-Schema and back") — each JSON-Schema property becomes a
declared field, required exactly when listed under `required`. -/
def jsonSchemaToSchemaDefinition (j : JsonSchema) : SchemaDecl :=
  { fields := j.properties.map (fun p => (p, j.required.contains p)) }

/-- Field presence in a schema declaration. -/
def SchemaDecl.hasField (d : SchemaDecl) (f : String) : Prop :=
  f ∈ d.fields.map Prod.fst

instance (d : SchemaDecl) (f : String) : Decidable (d.hasField f) := by
  unfold SchemaDecl.hasField; infer_instance

/- ============ IntegrationDefinitionProps (constructor input) ============ -/

/-- `configuration` section as authored: `Merge ConfigurationDefinition
(SchemaDefinition TConfig)` — its `schema` is still a schema declaration. -/
structure ConfigurationDef where
  schema : SchemaDecl
deriving Repr, DecidableEq

/-- An `events` entry as authored (title/description optional, declared
schema). -/
structure EventDef where
  title : Option String
  description : Option String
  schema : SchemaDecl
deriving Repr, DecidableEq

/-- The `input` / `output` halves of an action as authored. -/
structure OperationDef where
  schema : SchemaDecl
deriving Repr, DecidableEq

/-- An `actions` entry as authored. -/
structure ActionDef where
  title : Option String
  description : Option String
  input : OperationDef
  output : OperationDef
deriving Repr, DecidableEq

/-- A `messages` entry of a channel as authored. -/
structure MessageDef where
  schema : SchemaDecl
deriving Repr, DecidableEq

/-- `tagDefinitionSchema`: title/description, both optional. -/
structure TagDef where
  title : Option String
  description : Option String
deriving Repr, DecidableEq

/-- The `message` sub-object of a channel (all keys optional via
`.partial()`). -/
structure ChannelMessageCfg where
  tags : Option (List (String × TagDef))
deriving Repr, DecidableEq

/-- The `creation` sub-object of `conversation` / `user`. -/
structure CreationCfg where
  enabled : Bool
  requiredTags : List String
deriving Repr, DecidableEq

/-- The `conversation` sub-object of a channel (all keys optional via
`.partial()`). -/
structure ConversationCfg where
  tags : Option (List (String × TagDef))
  creation : Option CreationCfg
deriving Repr, DecidableEq

/-- A `channels` entry as authored: its `messages` values carry schema
declarations. -/
structure ChannelDef where
  title : Option String
  description : Option String
  messages : List (String × MessageDef)
  message : Option ChannelMessageCfg
  conversation : Option ConversationCfg
deriving Repr, DecidableEq

/-- A `states` entry as authored.  `type` is a plain string at runtime; the
schema restricts it to `integration` / `conversation` / `user`. -/
structure StateDef where
  type : String
  schema : SchemaDecl
deriving Repr, DecidableEq

/-- The `user` section (all keys optional via `.partial()`). -/
structure UserDef where
  tags : Option (List (String × TagDef))
  creation : Option CreationCfg
deriving Repr, DecidableEq

/-- The runtime value passed to `new IntegrationDefinition(props)`.  The
TypeScript type requires `name` and `version`, but the constructor validates
the runtime object with zod, so both are embedded as possibly-absent to model
untyped callers; every other section is optional in the type as well. -/
structure IntegrationDefinitionProps where
  name : Option String
  version : Option String
  title : Option String
  description : Option String
  icon : Option String
  readme : Option String
  configuration : Option ConfigurationDef
  events : Option (List (String × EventDef))
  actions : Option (List (String × ActionDef))
  channels : Option (List (String × ChannelDef))
  states : Option (List (String × StateDef))
  user : Option UserDef
  secrets : Option (List String)
deriving Repr, DecidableEq

/- ====== formatted input (schema declarations → JSON-Schema values) ====== -/

structure FmtConfigurationDef where
  schema : JsonSchema
deriving Repr, DecidableEq

structure FmtEventDef where
  title : Option String
  description : Option String
  schema : JsonSchema
deriving Repr, DecidableEq

structure FmtOperationDef where
  schema : JsonSchema
deriving Repr, DecidableEq

structure FmtActionDef where
  title : Option String
  description : Option String
  input : FmtOperationDef
  output : FmtOperationDef
deriving Repr, DecidableEq

structure FmtMessageDef where
  schema : JsonSchema
deriving Repr, DecidableEq

structure FmtChannelDef where
  title : Option String
  description : Option String
  messages : List (String × FmtMessageDef)
  message : Option ChannelMessageCfg
  conversation : Option ConversationCfg
deriving Repr, DecidableEq

structure FmtStateDef where
  type : String
  schema : JsonSchema
deriving Repr, DecidableEq

/-- `IntegrationDefinitionInput`: the object produced by
`formatIntegrationDefinition` and handed to
`integrationDefinitionSchema.parse`. -/
structure IntegrationDefinitionInput where
  name : Option String
  version : Option String
  title : Option String
  description : Option String
  icon : Option String
  readme : Option String
  configuration : Option FmtConfigurationDef
  events : Option (List (String × FmtEventDef))
  actions : Option (List (String × FmtActionDef))
  channels : Option (List (String × FmtChannelDef))
  states : Option (List (String × FmtStateDef))
  user : Option UserDef
  secrets : Option (List String)
deriving Repr, DecidableEq

def formatEvent (e : EventDef) : FmtEventDef :=
  { title := e.title, description := e.description
    schema := schemaDefinitionToJsonSchema e.schema }

def formatAction (a : ActionDef) : FmtActionDef :=
  { title := a.title, description := a.description
    input := { schema := schemaDefinitionToJsonSchema a.input.schema }
    output := { schema := schemaDefinitionToJsonSchema a.output.schema } }

def formatChannel (c : ChannelDef) : FmtChannelDef :=
  { title := c.title, description := c.description
    messages := c.messages.map
      (fun m => (m.1, { schema := schemaDefinitionToJsonSchema m.2.schema }))
    message := c.message, conversation := c.conversation }

def formatState (s : StateDef) : FmtStateDef :=
  { type := s.type, schema := schemaDefinitionToJsonSchema s.schema }

/-- `formatIntegrationDefinition`: keep every field of the definition
(`...definition` spread, `user: definition.user`), replacing the schema
declaration of each declared section by its JSON-Schema translation
(`mapValues` preserves keys; an absent section stays `undefined`). -/
def formatIntegrationDefinition (d : IntegrationDefinitionProps) :
    IntegrationDefinitionInput :=
  { name := d.name, version := d.version, title := d.title
    description := d.description, icon := d.icon, readme := d.readme
    configuration := d.configuration.map
      (fun c => { schema := schemaDefinitionToJsonSchema c.schema })
    events := d.events.map (List.map (fun e => (e.1, formatEvent e.2)))
    actions := d.actions.map (List.map (fun a => (a.1, formatAction a.2)))
    channels := d.channels.map (List.map (fun c => (c.1, formatChannel c.2)))
    states := d.states.map (List.map (fun s => (s.1, formatState s.2)))
    user := d.user, secrets := d.secrets }

/- ================== zod validation of the merged object ================= -/

/-- A zod issue: the path of the offending field and a message. -/
structure ZodIssue where
  path : List String
  message : String
deriving Repr, DecidableEq

def PRIVATE_VERSION : String := "0.0.1"
def PUBLIC_VERSION : String := "0.2.0"

/-- `z.enum([PRIVATE_VERSION, PUBLIC_VERSION])` membership. -/
def acceptedVersion (v : String) : Bool :=
  v = PRIVATE_VERSION || v = PUBLIC_VERSION

/-- The refine message of `nonEmptyDict(...).min(n)`. -/
def minItemsMessage (n : Nat) : String :=
  "At least " ++ toString n ++ " item(s) must be defined"

/-- `z.string()` on a required key: absent ⇒ `Required` issue at that key. -/
def checkName (name : Option String) : List ZodIssue :=
  match name with
  | Option.none => [⟨["name"], "Required"⟩]
  | Option.some _ => []

/-- `z.enum([PRIVATE_VERSION, PUBLIC_VERSION])` on the required `version`
key: absent ⇒ `Required`; present but not one of the two literals ⇒ invalid
enum value. -/
def checkVersion (version : Option String) : List ZodIssue :=
  match version with
  | Option.none => [⟨["version"], "Required"⟩]
  | Option.some v =>
    if acceptedVersion v then [] else [⟨["version"], "Invalid enum value"⟩]

/-- The `nonEmptyDict(messageDefinitionSchema).min(1)` refine on one
channel's `messages` dictionary. -/
def checkChannelEntry (k : String) (c : FmtChannelDef) : List ZodIssue :=
  if 1 ≤ c.messages.length then []
  else [⟨["channels", k, "messages"], minItemsMessage 1⟩]

def checkChannels : Option (List (String × FmtChannelDef)) → List ZodIssue
  | Option.none => []
  | Option.some chs => chs.flatMap (fun c => checkChannelEntry c.1 c.2)

/-- The `z.union` of the three `type` literals on one state entry. -/
def validStateType (t : String) : Bool :=
  t = "integration" || t = "conversation" || t = "user"

def checkStateEntry (k : String) (s : FmtStateDef) : List ZodIssue :=
  if validStateType s.type then []
  else [⟨["states", k, "type"], "Invalid state type"⟩]

def checkStates : Option (List (String × FmtStateDef)) → List ZodIssue
  | Option.none => []
  | Option.some sts => sts.flatMap (fun s => checkStateEntry s.1 s.2)

/-- All issues of `integrationDefinitionSchema` against a (well-shaped)
input, in the schema's field order.  The remaining fields are optional or
shape-only (`schemaSchema` is a passthrough object) and are enforced by the
embedding's types, so they contribute no issues. -/
def checkIntegrationDefinition (d : IntegrationDefinitionInput) : List ZodIssue :=
  checkName d.name ++ checkVersion d.version ++
    checkChannels d.channels ++ checkStates d.states

/-- The parsed object: the thirteen public readonly fields of the
`IntegrationDefinition` class. -/
structure IntegrationDefinition where
  name : String
  version : String
  title : Option String
  description : Option String
  icon : Option String
  readme : Option String
  configuration : Option FmtConfigurationDef
  events : Option (List (String × FmtEventDef))
  actions : Option (List (String × FmtActionDef))
  channels : Option (List (String × FmtChannelDef))
  states : Option (List (String × FmtStateDef))
  user : Option UserDef
  secrets : Option (List String)
deriving Repr, DecidableEq

/-- `integrationDefinitionSchema.parse`: throw the issues if any, otherwise
return the parsed object field by field.  (The `.error []` arm is
unreachable: no issues implies `name` and `version` are present.) -/
def parseIntegrationDefinition (d : IntegrationDefinitionInput) :
    Except (List ZodIssue) IntegrationDefinition :=
  match checkIntegrationDefinition d, d.name, d.version with
  | [], Option.some n, Option.some v =>
    .ok { name := n, version := v, title := d.title
          description := d.description, icon := d.icon, readme := d.readme
          configuration := d.configuration, events := d.events
          actions := d.actions, channels := d.channels, states := d.states
          user := d.user, secrets := d.secrets }
  | issues, _, _ => .error issues

/-- The `IntegrationDefinition` constructor: format the props, then validate
the merged object against the static manifest schema. -/
def IntegrationDefinition.construct (props : IntegrationDefinitionProps) :
    Except (List ZodIssue) IntegrationDefinition :=
  parseIntegrationDefinition (formatIntegrationDefinition props)

/-- A constructed definition re-read as a validation input (its thirteen
fields, `name` and `version` present). -/
def IntegrationDefinition.toInput (d : IntegrationDefinition) :
    IntegrationDefinitionInput :=
  { name := some d.name, version := some d.version, title := d.title
    description := d.description, icon := d.icon, readme := d.readme
    configuration := d.configuration, events := d.events
    actions := d.actions, channels := d.channels, states := d.states
    user := d.user, secrets := d.secrets }

/-- Validity of props at the manifest boundary: required fields present,
`version` one of the two accepted literals, every declared channel has at
least one message, every declared state one of the three types.  (All other
constraints of the fixed shape are enforced by the embedding's types.) -/
def validProps (p : IntegrationDefinitionProps) : Bool :=
  p.name.isSome &&
    (match p.version with
     | Option.some v => acceptedVersion v
     | Option.none => false) &&
    (match p.channels with
     | Option.some chs => chs.all (fun c => 1 ≤ c.2.messages.length)
     | Option.none => true) &&
    (match p.states with
     | Option.some sts => sts.all (fun s => validStateType s.2.type)
     | Option.none => true)

/-- Decidable equality of construction outcomes, for evaluating the model on
concrete definitions. -/
instance {ε α : Type} [DecidableEq ε] [DecidableEq α] : DecidableEq (Except ε α) := fun x y =>
  match x, y with
  | .ok a, .ok b =>
    match decEq a b with
    | isTrue h => isTrue (congrArg Except.ok h)
    | isFalse h => isFalse (fun e => h (Except.ok.inj e))
  | .error a, .error b =>
    match decEq a b with
    | isTrue h => isTrue (congrArg Except.error h)
    | isFalse h => isFalse (fun e => h (Except.error.inj e))
  | .ok _, .error _ => isFalse (fun e => Except.noConfusion e)
  | .error _, .ok _ => isFalse (fun e => Except.noConfusion e)

/-- What it means for a zod issue to identify the offending field of an
input: its path points into a field that indeed violates the manifest
schema. -/
def offendingAt (d : IntegrationDefinitionInput) (i : ZodIssue) : Prop :=
  match i.path with
  | "name" :: _ => d.name = Option.none
  | "version" :: _ =>
    d.version = Option.none ∨ ∃ v, d.version = some v ∧ acceptedVersion v = false
  | "channels" :: k :: _ =>
    ∃ chs ch, d.channels = some chs ∧ (k, ch) ∈ chs ∧ ch.messages.length = 0
  | "states" :: k :: _ =>
    ∃ sts st, d.states = some sts ∧ (k, st) ∈ sts ∧ validStateType st.type = false
  | _ => False

/- ===================== concrete sample inputs ====================== -/

/-- Props with every field absent (to be updated per example). -/
def propsBase : IntegrationDefinitionProps :=
  { name := Option.none, version := Option.none, title := Option.none
    description := Option.none, icon := Option.none, readme := Option.none
    configuration := Option.none, events := Option.none, actions := Option.none
    channels := Option.none, states := Option.none, user := Option.none
    secrets := Option.none }

def sampleSchemaDecl : SchemaDecl := ⟨[("botToken", true), ("channelId", false)]⟩

def samplePkgA : TargetPackage := ⟨"packages/a", ⟨"pkg-a", "1.0.0", false⟩⟩
def samplePkgBad : TargetPackage := ⟨"packages/b", ⟨"pkg-b", "not-semver", false⟩⟩
def samplePkgPriv : TargetPackage := ⟨"packages/p", ⟨"pkg-p", "0.1.0", true⟩⟩


def emptyChannelDef : ChannelDef :=
  { title := Option.none, description := Option.none, messages := []
    message := Option.none, conversation := Option.none }

def propsMinimal : IntegrationDefinitionProps :=
  { propsBase with name := some "x", version := some "0.0.1" }

def outMinimal : IntegrationDefinition :=
  { name := "x", version := "0.0.1", title := Option.none
    description := Option.none, icon := Option.none, readme := Option.none
    configuration := Option.none, events := Option.none, actions := Option.none
    channels := Option.none, states := Option.none, user := Option.none
    secrets := Option.none }

def propsBadVersion : IntegrationDefinitionProps :=
  { propsBase with name := some "x", version := some "1.0.0" }

def propsEmptyChannel : IntegrationDefinitionProps :=
  { propsBase with
    name := some "x"
    version := some "0.0.1"
    channels := some [("general", emptyChannelDef)] }

def propsSample : IntegrationDefinitionProps :=
  { name := some "slack", version := some "0.2.0", title := some "Slack"
    description := some "Chat", icon := some "icon.svg", readme := some "readme.md"
    configuration := some { schema := sampleSchemaDecl }
    events := some [("messageReceived",
      { title := some "Message", description := Option.none, schema := sampleSchemaDecl })]
    actions := some [("sendMessage",
      { title := Option.none, description := Option.none
        input := { schema := sampleSchemaDecl }, output := { schema := sampleSchemaDecl } })]
    channels := some [("general",
      { title := Option.none, description := Option.none
        messages := [("text", { schema := sampleSchemaDecl })]
        message := Option.none, conversation := Option.none })]
    states := some [("creds", { type := "integration", schema := sampleSchemaDecl })]
    user := some { tags := Option.none, creation := Option.none }
    secrets := some ["SENTRY_DSN"] }

def sampleBumpState : BumpState :=
  { manifests := [(samplePkgA.path, samplePkgA.content),
                  (samplePkgBad.path, samplePkgBad.content)]
    writes := [], targetVersions := pnpmVersions [samplePkgA, samplePkgBad] }

/- ======================= shared helper lemmas ======================= -/

theorem checkName_eq_nil {n : Option String} : checkName n = [] ↔ n.isSome = true := by
  cases n <;> simp [checkName]

theorem checkVersion_eq_nil {v : Option String} :
    checkVersion v = [] ↔ ∃ s, v = some s ∧ acceptedVersion s = true := by
  cases v with
  | none => simp [checkVersion]
  | some s =>
    by_cases h : acceptedVersion s = true <;> simp [checkVersion, h]

theorem checkChannels_some_eq_nil {chs : List (String × FmtChannelDef)} :
    checkChannels (some chs) = [] ↔ ∀ x ∈ chs, 1 ≤ x.2.messages.length := by
  induction chs with
  | nil => simp [checkChannels]
  | cons c rest ih =>
    simp only [checkChannels, List.flatMap_cons, List.append_eq_nil] at *
    constructor
    · rintro ⟨h1, h2⟩ x hx
      rcases List.mem_cons.mp hx with rfl | hmem
      · by_cases hl : 1 ≤ x.2.messages.length
        · exact hl
        · simp [checkChannelEntry, hl] at h1
      · exact (ih.mp h2) x hmem
    · intro h
      refine ⟨?_, ih.mpr (fun x hx => h x (List.mem_cons_of_mem _ hx))⟩
      have := h c (List.mem_cons_self _ _)
      simp [checkChannelEntry, this]

theorem checkStates_some_eq_nil {sts : List (String × FmtStateDef)} :
    checkStates (some sts) = [] ↔ ∀ x ∈ sts, validStateType x.2.type = true := by
  induction sts with
  | nil => simp [checkStates]
  | cons s rest ih =>
    simp only [checkStates, List.flatMap_cons, List.append_eq_nil] at *
    constructor
    · rintro ⟨h1, h2⟩ x hx
      rcases List.mem_cons.mp hx with rfl | hmem
      · by_cases hl : validStateType x.2.type = true
        · exact hl
        · simp [checkStateEntry, hl] at h1
      · exact (ih.mp h2) x hmem
    · intro h
      refine ⟨?_, ih.mpr (fun x hx => h x (List.mem_cons_of_mem _ hx))⟩
      have := h s (List.mem_cons_self _ _)
      simp [checkStateEntry, this]

theorem check_eq_nil_name {d : IntegrationDefinitionInput}
    (h : checkIntegrationDefinition d = []) : ∃ n, d.name = some n := by
  unfold checkIntegrationDefinition at h
  rcases List.append_eq_nil.mp h with ⟨h1, _⟩
  rcases List.append_eq_nil.mp h1 with ⟨h2, _⟩
  rcases List.append_eq_nil.mp h2 with ⟨hn, _⟩
  cases hd : d.name with
  | none => rw [hd] at hn; simp [checkName] at hn
  | some n => exact ⟨n, rfl⟩

theorem parse_ok_of_check_nil {d : IntegrationDefinitionInput} {n v : String}
    (hc : checkIntegrationDefinition d = []) (hn : d.name = some n)
    (hv : d.version = some v) :
    parseIntegrationDefinition d =
      .ok { name := n, version := v, title := d.title
            description := d.description, icon := d.icon, readme := d.readme
            configuration := d.configuration, events := d.events
            actions := d.actions, channels := d.channels, states := d.states
            user := d.user, secrets := d.secrets } := by
  unfold parseIntegrationDefinition
  rw [hc, hn, hv]

theorem parse_err_of_check_ne_nil {d : IntegrationDefinitionInput}
    (h : checkIntegrationDefinition d ≠ []) :
    parseIntegrationDefinition d = .error (checkIntegrationDefinition d) := by
  unfold parseIntegrationDefinition
  rcases hl : checkIntegrationDefinition d with _ | ⟨a, l⟩
  · exact absurd hl h
  · rfl

theorem parse_error_inv {d : IntegrationDefinitionInput} {issues : List ZodIssue}
    (h : parseIntegrationDefinition d = .error issues) :
    issues = checkIntegrationDefinition d ∧ checkIntegrationDefinition d ≠ [] := by
  by_cases hc : checkIntegrationDefinition d = []
  · obtain ⟨n, hn⟩ := check_eq_nil_name hc
    have hv : ∃ v, d.version = some v := by
      unfold checkIntegrationDefinition at hc
      rcases List.append_eq_nil.mp hc with ⟨h1, _⟩
      rcases List.append_eq_nil.mp h1 with ⟨h2, _⟩
      rcases List.append_eq_nil.mp h2 with ⟨_, hvv⟩
      rcases checkVersion_eq_nil.mp hvv with ⟨s, hs, _⟩
      exact ⟨s, hs⟩
    obtain ⟨v, hv⟩ := hv
    rw [parse_ok_of_check_nil hc hn hv] at h
    exact absurd h (by simp)
  · rw [parse_err_of_check_ne_nil hc] at h
    exact ⟨(Except.error.inj h).symm, hc⟩

theorem parse_ok_inv {d : IntegrationDefinitionInput} {out : IntegrationDefinition}
    (h : parseIntegrationDefinition d = .ok out) :
    checkIntegrationDefinition d = [] ∧ d.name = some out.name ∧
      d.version = some out.version ∧ out.title = d.title ∧
      out.description = d.description ∧ out.icon = d.icon ∧
      out.readme = d.readme ∧ out.configuration = d.configuration ∧
      out.events = d.events ∧ out.actions = d.actions ∧
      out.channels = d.channels ∧ out.states = d.states ∧
      out.user = d.user ∧ out.secrets = d.secrets := by
  by_cases hc : checkIntegrationDefinition d = []
  · obtain ⟨n, hn⟩ := check_eq_nil_name hc
    have hv : ∃ v, d.version = some v := by
      unfold checkIntegrationDefinition at hc
      rcases List.append_eq_nil.mp hc with ⟨h1, _⟩
      rcases List.append_eq_nil.mp h1 with ⟨h2, _⟩
      rcases List.append_eq_nil.mp h2 with ⟨_, hvv⟩
      rcases checkVersion_eq_nil.mp hvv with ⟨s, hs, _⟩
      exact ⟨s, hs⟩
    obtain ⟨v, hv⟩ := hv
    rw [parse_ok_of_check_nil hc hn hv] at h
    have hout := Except.ok.inj h
    subst hout
    simp [hc, hn, hv]
  · rw [parse_err_of_check_ne_nil hc] at h
    exact absurd h (by simp)

/-- C8: translating a schema declaration to its JSON-Schema representation
and back preserves field presence: a field is present in the declaration iff
a corresponding field is present after the round trip. -/
theorem schema_roundtrip_preserves_fields (d : SchemaDecl) (f : String) :
    (jsonSchemaToSchemaDefinition (schemaDefinitionToJsonSchema d)).hasField f ↔
      d.hasField f := by
  simp [jsonSchemaToSchemaDefinition, schemaDefinitionToJsonSchema,
    SchemaDecl.hasField, List.map_map, Function.comp]

/-- C1: for valid props the constructor succeeds and every field of the
result equals the corresponding input field, except that each section's
schema declaration is replaced by its JSON-Schema translation. -/
theorem construct_valid_succeeds (p : IntegrationDefinitionProps)
    (h : validProps p = true) :
    ∃ out, IntegrationDefinition.construct p = .ok out ∧
      p.name = some out.name ∧ p.version = some out.version ∧
      out.title = p.title ∧ out.description = p.description ∧
      out.icon = p.icon ∧ out.readme = p.readme ∧
      out.configuration = p.configuration.map
        (fun c => { schema := schemaDefinitionToJsonSchema c.schema }) ∧
      out.events = p.events.map (List.map (fun e => (e.1, formatEvent e.2))) ∧
      out.actions = p.actions.map (List.map (fun a => (a.1, formatAction a.2))) ∧
      out.channels = p.channels.map (List.map (fun c => (c.1, formatChannel c.2))) ∧
      out.states = p.states.map (List.map (fun s => (s.1, formatState s.2))) ∧
      out.user = p.user ∧ out.secrets = p.secrets := by
  simp only [validProps, Bool.and_eq_true] at h
  obtain ⟨⟨⟨hn, hv⟩, hch⟩, hst⟩ := h
  obtain ⟨n, hn⟩ := Option.isSome_iff_exists.mp hn
  have hv' : ∃ v, p.version = some v ∧ acceptedVersion v = true := by
    cases hpv : p.version with
    | none => rw [hpv] at hv; exact absurd hv (by simp)
    | some v => rw [hpv] at hv; exact ⟨v, rfl, hv⟩
  obtain ⟨v, hpv, hav⟩ := hv'
  have hcheck : checkIntegrationDefinition (formatIntegrationDefinition p) = [] := by
    unfold checkIntegrationDefinition
    rw [List.append_eq_nil, List.append_eq_nil, List.append_eq_nil]
    refine ⟨⟨⟨?_, ?_⟩, ?_⟩, ?_⟩
    · simp [formatIntegrationDefinition, hn, checkName]
    · simp only [formatIntegrationDefinition]
      rw [hpv]
      simp [checkVersion, hav]
    · simp only [formatIntegrationDefinition]
      cases hpc : p.channels with
      | none => simp [checkChannels]
      | some chs =>
        rw [hpc] at hch
        simp only [Option.map_some']
        rw [checkChannels_some_eq_nil]
        intro x hx
        rcases List.mem_map.mp hx with ⟨c, hc, rfl⟩
        simp only [List.all_eq_true, decide_eq_true_eq] at hch
        have h1 := hch c hc
        simpa [formatChannel] using h1
    · simp only [formatIntegrationDefinition]
      cases hps : p.states with
      | none => simp [checkStates]
      | some sts =>
        rw [hps] at hst
        simp only [Option.map_some']
        rw [checkStates_some_eq_nil]
        intro x hx
        rcases List.mem_map.mp hx with ⟨s, hs, rfl⟩
        simp only [List.all_eq_true] at hst
        have := hst s hs
        simpa [formatState] using this
  have hfn : (formatIntegrationDefinition p).name = some n := by
    simp [formatIntegrationDefinition, hn]
  have hfv : (formatIntegrationDefinition p).version = some v := by
    simp [formatIntegrationDefinition, hpv]
  refine ⟨_, parse_ok_of_check_nil hcheck hfn hfv, ?_⟩
  simp [formatIntegrationDefinition, hn, hpv]

theorem mem_checkChannels_inv {o : Option (List (String × FmtChannelDef))} {i : ZodIssue}
    (h : i ∈ checkChannels o) :
    ∃ chs k ch, o = some chs ∧ (k, ch) ∈ chs ∧ ch.messages.length = 0 ∧
      i = ⟨["channels", k, "messages"], minItemsMessage 1⟩ := by
  cases o with
  | none => simp [checkChannels] at h
  | some chs =>
    simp only [checkChannels] at h
    rcases List.mem_flatMap.mp h with ⟨⟨k, ch⟩, hmem, hin⟩
    by_cases hl : 1 ≤ ch.messages.length
    · simp [checkChannelEntry, hl] at hin
    · have hz : ch.messages.length = 0 := Nat.eq_zero_of_not_pos hl
      simp only [checkChannelEntry, hl, if_false, List.mem_singleton] at hin
      exact ⟨chs, k, ch, rfl, hmem, hz, hin⟩

theorem mem_checkStates_inv {o : Option (List (String × FmtStateDef))} {i : ZodIssue}
    (h : i ∈ checkStates o) :
    ∃ sts k st, o = some sts ∧ (k, st) ∈ sts ∧ validStateType st.type = false ∧
      i = ⟨["states", k, "type"], "Invalid state type"⟩ := by
  cases o with
  | none => simp [checkStates] at h
  | some sts =>
    simp only [checkStates] at h
    rcases List.mem_flatMap.mp h with ⟨⟨k, st⟩, hmem, hin⟩
    by_cases hl : validStateType st.type = true
    · simp [checkStateEntry, hl] at hin
    · have hf : validStateType st.type = false := Bool.eq_false_iff.mpr hl
      rw [checkStateEntry, if_neg (by simp [hf])] at hin
      simp only [List.mem_singleton] at hin
      exact ⟨sts, k, st, rfl, hmem, hf, hin⟩

/-- C2: an unrecognized `version` (anything but the two accepted literals)
or a missing required field (`name` or `version`) makes construction fail;
with the required fields present and an accepted version, validation never
rejects on the `version` field. -/
theorem construct_version_gate :
    (∀ p v, p.version = some v → acceptedVersion v = false →
        ∃ issues, IntegrationDefinition.construct p = .error issues ∧
          (⟨["version"], "Invalid enum value"⟩ : ZodIssue) ∈ issues) ∧
    (∀ p, p.name = Option.none ∨ p.version = Option.none →
        ∃ issues, IntegrationDefinition.construct p = .error issues ∧ issues ≠ []) ∧
    (∀ p v issues, p.name.isSome = true → p.version = some v →
        acceptedVersion v = true →
        IntegrationDefinition.construct p = .error issues →
        ∀ i ∈ issues, i.path.head? ≠ some "version") := by
  refine ⟨?_, ?_, ?_⟩
  · intro p v hv hav
    have hdv : (formatIntegrationDefinition p).version = some v := by
      simp [formatIntegrationDefinition, hv]
    have hmem : (⟨["version"], "Invalid enum value"⟩ : ZodIssue) ∈
        checkIntegrationDefinition (formatIntegrationDefinition p) := by
      unfold checkIntegrationDefinition
      rw [hdv]
      simp [checkVersion, hav]
    have hne : checkIntegrationDefinition (formatIntegrationDefinition p) ≠ [] :=
      List.ne_nil_of_mem hmem
    exact ⟨_, parse_err_of_check_ne_nil hne, hmem⟩
  · intro p hmiss
    have hne : checkIntegrationDefinition (formatIntegrationDefinition p) ≠ [] := by
      intro hc
      rcases hmiss with hm | hm
      · obtain ⟨n, hn⟩ := check_eq_nil_name hc
        simp [formatIntegrationDefinition, hm] at hn
      · unfold checkIntegrationDefinition at hc
        rcases List.append_eq_nil.mp hc with ⟨h1, _⟩
        rcases List.append_eq_nil.mp h1 with ⟨h2, _⟩
        rcases List.append_eq_nil.mp h2 with ⟨_, hvv⟩
        rcases checkVersion_eq_nil.mp hvv with ⟨s, hs, _⟩
        simp [formatIntegrationDefinition, hm] at hs
    exact ⟨_, parse_err_of_check_ne_nil hne, hne⟩
  · intro p v issues hn hv hav herr i hi
    obtain ⟨rfl, -⟩ := parse_error_inv herr
    unfold checkIntegrationDefinition at hi
    rcases List.mem_append.mp hi with hi' | hsts
    · rcases List.mem_append.mp hi' with hi'' | hchs
      · rcases List.mem_append.mp hi'' with hname | hver
        · have : (formatIntegrationDefinition p).name = p.name := rfl
          rw [this] at hname
          cases hpn : p.name with
          | none => rw [hpn] at hn; simp at hn
          | some n => rw [hpn] at hname; simp [checkName] at hname
        · have : (formatIntegrationDefinition p).version = p.version := rfl
          rw [this, hv] at hver
          simp [checkVersion, hav] at hver
      · rcases mem_checkChannels_inv hchs with ⟨_, _, _, _, _, _, rfl⟩
        simp
    · rcases mem_checkStates_inv hsts with ⟨_, _, _, _, _, _, rfl⟩
      simp

/-- C4: a definition omitting any optional section yields a constructed
object on which the corresponding field is absent/undefined. -/
theorem construct_omits_optional (p : IntegrationDefinitionProps)
    (out : IntegrationDefinition)
    (h : IntegrationDefinition.construct p = .ok out) :
    (p.title = Option.none → out.title = Option.none) ∧
    (p.description = Option.none → out.description = Option.none) ∧
    (p.icon = Option.none → out.icon = Option.none) ∧
    (p.readme = Option.none → out.readme = Option.none) ∧
    (p.configuration = Option.none → out.configuration = Option.none) ∧
    (p.events = Option.none → out.events = Option.none) ∧
    (p.actions = Option.none → out.actions = Option.none) ∧
    (p.channels = Option.none → out.channels = Option.none) ∧
    (p.states = Option.none → out.states = Option.none) ∧
    (p.user = Option.none → out.user = Option.none) ∧
    (p.secrets = Option.none → out.secrets = Option.none) := by
  obtain ⟨-, -, -, ht, hd, hi, hr, hc, he, ha, hch, hst, hu, hs⟩ := parse_ok_inv h
  refine ⟨?_, ?_, ?_, ?_, ?_, ?_, ?_, ?_, ?_, ?_, ?_⟩ <;> intro hnone
  · rw [ht]; simp [formatIntegrationDefinition, hnone]
  · rw [hd]; simp [formatIntegrationDefinition, hnone]
  · rw [hi]; simp [formatIntegrationDefinition, hnone]
  · rw [hr]; simp [formatIntegrationDefinition, hnone]
  · rw [hc]; simp [formatIntegrationDefinition, hnone]
  · rw [he]; simp [formatIntegrationDefinition, hnone]
  · rw [ha]; simp [formatIntegrationDefinition, hnone]
  · rw [hch]; simp [formatIntegrationDefinition, hnone]
  · rw [hst]; simp [formatIntegrationDefinition, hnone]
  · rw [hu]; simp [formatIntegrationDefinition, hnone]
  · rw [hs]; simp [formatIntegrationDefinition, hnone]

/-- C5: construction is the stated two-step pipeline (format the sections'
schemas, then validate the whole object), and a validation failure reports
at least one issue, each of whose paths identifies an offending field. -/
theorem construct_error_identifies_path (p : IntegrationDefinitionProps)
    (issues : List ZodIssue)
    (h : IntegrationDefinition.construct p = .error issues) :
    issues ≠ [] ∧
    (∀ i ∈ issues, offendingAt (formatIntegrationDefinition p) i) ∧
    IntegrationDefinition.construct p =
      parseIntegrationDefinition (formatIntegrationDefinition p) := by
  obtain ⟨rfl, hne⟩ := parse_error_inv h
  refine ⟨hne, ?_, rfl⟩
  intro i hi
  unfold checkIntegrationDefinition at hi
  rcases List.mem_append.mp hi with hi' | hsts
  · rcases List.mem_append.mp hi' with hi'' | hchs
    · rcases List.mem_append.mp hi'' with hname | hver
      · cases hpn : (formatIntegrationDefinition p).name with
        | none =>
          rw [hpn] at hname
          simp only [checkName, List.mem_singleton] at hname
          subst hname
          simpa [offendingAt] using hpn
        | some n => rw [hpn] at hname; simp [checkName] at hname
      · cases hpv : (formatIntegrationDefinition p).version with
        | none =>
          rw [hpv] at hver
          simp only [checkVersion, List.mem_singleton] at hver
          subst hver
          simp [offendingAt, hpv]
        | some v =>
          rw [hpv] at hver
          by_cases hav : acceptedVersion v = true
          · simp [checkVersion, hav] at hver
          · simp only [checkVersion, if_neg hav, List.mem_singleton] at hver
            subst hver
            simp only [offendingAt]
            exact Or.inr ⟨v, hpv, Bool.eq_false_iff.mpr hav⟩
    · rcases mem_checkChannels_inv hchs with ⟨chs, k, ch, ho, hmem, hz, rfl⟩
      simp only [offendingAt]
      exact ⟨chs, ch, ho, hmem, hz⟩
  · rcases mem_checkStates_inv hsts with ⟨sts, k, st, ho, hmem, hf, rfl⟩
    simp only [offendingAt]
    exact ⟨sts, st, ho, hmem, hf⟩

/-- C7: construction is the pure two-step pipeline — the only validation is
the single `parse` at construction — and a constructed definition, re-read
as a validation input, still validates and parses to itself unchanged (the
record stays valid without revalidation, matching its immutability). -/
theorem construct_validates_once (p : IntegrationDefinitionProps)
    (out : IntegrationDefinition)
    (h : IntegrationDefinition.construct p = .ok out) :
    IntegrationDefinition.construct p =
      parseIntegrationDefinition (formatIntegrationDefinition p) ∧
    parseIntegrationDefinition out.toInput = .ok out := by
  obtain ⟨hc, hn, hv, ht, hd, hi, hr, hcf, he, ha, hch, hst, hu, hs⟩ := parse_ok_inv h
  refine ⟨rfl, ?_⟩
  have hcheck : checkIntegrationDefinition out.toInput = [] := by
    unfold checkIntegrationDefinition at hc ⊢
    rcases List.append_eq_nil.mp hc with ⟨h1, hstn⟩
    rcases List.append_eq_nil.mp h1 with ⟨h2, hchn⟩
    rcases List.append_eq_nil.mp h2 with ⟨hnn, hvn⟩
    have htiv : out.toInput.version = some out.version := rfl
    have hver : checkVersion out.toInput.version = [] := by
      rw [htiv]
      rw [hv] at hvn
      exact hvn
    have hcha : checkChannels out.toInput.channels = [] := by
      have : out.toInput.channels = (formatIntegrationDefinition p).channels := by
        simp [IntegrationDefinition.toInput, hch]
      rw [this]
      exact hchn
    have hsta : checkStates out.toInput.states = [] := by
      have : out.toInput.states = (formatIntegrationDefinition p).states := by
        simp [IntegrationDefinition.toInput, hst]
      rw [this]
      exact hstn
    rw [hver, hcha, hsta]
    simp [IntegrationDefinition.toInput, checkName]
  have hn' : out.toInput.name = some out.name := rfl
  have hv' : out.toInput.version = some out.version := rfl
  rw [parse_ok_of_check_nil hcheck hn' hv']
  rfl

/-- C10: a declared channel with an empty messages dictionary fails
construction with the `At least 1 item(s) must be defined` issue at that
channel's `messages` path; consequently every channel of a successfully
constructed definition has at least one message. -/
theorem construct_channel_min_messages :
    (∀ p chs k ch, p.channels = some chs → (k, ch) ∈ chs → ch.messages = [] →
        ∃ issues, IntegrationDefinition.construct p = .error issues ∧
          (⟨["channels", k, "messages"], "At least 1 item(s) must be defined"⟩ :
              ZodIssue) ∈ issues) ∧
    (∀ p out, IntegrationDefinition.construct p = .ok out →
        ∀ chs, out.channels = some chs → ∀ x ∈ chs, 1 ≤ x.2.messages.length) := by
  constructor
  · intro p chs k ch hpc hmem hempty
    have hdc : (formatIntegrationDefinition p).channels =
        some (chs.map (fun c => (c.1, formatChannel c.2))) := by
      simp [formatIntegrationDefinition, hpc]
    have hissue : (⟨["channels", k, "messages"],
        "At least 1 item(s) must be defined"⟩ : ZodIssue) ∈
        checkIntegrationDefinition (formatIntegrationDefinition p) := by
      unfold checkIntegrationDefinition
      rw [hdc]
      refine List.mem_append.mpr (Or.inl (List.mem_append.mpr (Or.inr ?_)))
      simp only [checkChannels]
      refine List.mem_flatMap.mpr ⟨(k, formatChannel ch), List.mem_map.mpr ⟨(k, ch), hmem, rfl⟩, ?_⟩
      have hlen : (formatChannel ch).messages.length = 0 := by
        simp [formatChannel, hempty]
      have hmsg : minItemsMessage 1 = "At least 1 item(s) must be defined" := rfl
      simp [checkChannelEntry, hlen, hmsg]
    have hne : checkIntegrationDefinition (formatIntegrationDefinition p) ≠ [] :=
      List.ne_nil_of_mem hissue
    exact ⟨_, parse_err_of_check_ne_nil hne, hissue⟩
  · intro p out h chs hchs x hx
    obtain ⟨hc, -, -, -, -, -, -, -, -, -, hch, -⟩ := parse_ok_inv h
    unfold checkIntegrationDefinition at hc
    rcases List.append_eq_nil.mp hc with ⟨h1, -⟩
    rcases List.append_eq_nil.mp h1 with ⟨-, hchn⟩
    rw [← hch, hchs] at hchn
    exact checkChannels_some_eq_nil.mp hchn x hx

theorem lookup_updateManifest_ne {p path : String} (hne : p ≠ path) (v : String)
    (m : List (String × PackageJson)) :
    (updateManifest path v m).lookup p = m.lookup p := by
  induction m with
  | nil => rfl
  | cons e rest ih =>
    obtain ⟨q, c⟩ := e
    by_cases hq : q = path
    · subst hq
      have hb : (p == q) = false := beq_eq_false_iff_ne.mpr hne
      simp [updateManifest, List.lookup, ih, hb]
    · simp [updateManifest, hq, List.lookup, ih]

theorem lookup_updateManifest_eq (path v : String) (m : List (String × PackageJson)) :
    (updateManifest path v m).lookup path =
      (m.lookup path).map (fun c => { c with version := v }) := by
  induction m with
  | nil => rfl
  | cons e rest ih =>
    obtain ⟨q, c⟩ := e
    by_cases hq : q = path
    · subst hq
      simp [updateManifest, List.lookup, ih]
    · have : (path == q) = false := by simp [beq_iff_eq]; exact fun h => hq h.symm
      simp [updateManifest, hq, List.lookup, this, ih]

theorem lookup_assocSet_eq (k v : String) (l : List (String × String)) :
    (assocSet k v l).lookup k = some v := by
  induction l with
  | nil => simp [assocSet, List.lookup]
  | cons e rest ih =>
    obtain ⟨k', v'⟩ := e
    by_cases hk : k' = k
    · subst hk
      simp [assocSet, List.lookup]
    · have : (k == k') = false := by simp [beq_iff_eq]; exact fun h => hk h.symm
      simp [assocSet, hk, List.lookup, this, ih]

theorem lookup_assocSet_ne {q k : String} (hne : q ≠ k) (v : String)
    (l : List (String × String)) :
    (assocSet k v l).lookup q = l.lookup q := by
  induction l with
  | nil =>
    have hb : (q == k) = false := beq_eq_false_iff_ne.mpr hne
    simp [assocSet, List.lookup, hb]
  | cons e rest ih =>
    obtain ⟨k', v'⟩ := e
    by_cases hk : k' = k
    · subst hk
      have hb : (q == k') = false := beq_eq_false_iff_ne.mpr hne
      simp [assocSet, List.lookup, hb]
    · simp [assocSet, hk, List.lookup, ih]

theorem lookup_map_path {pkgs : List TargetPackage} {pkg : TargetPackage}
    (hmem : pkg ∈ pkgs) (hnodup : (pkgs.map TargetPackage.path).Nodup) :
    (pkgs.map (fun p => (p.path, p.content))).lookup pkg.path = some pkg.content := by
  induction pkgs with
  | nil => simp at hmem
  | cons q rest ih =>
    simp only [List.map_cons, List.nodup_cons] at hnodup
    rcases List.mem_cons.mp hmem with rfl | hmem'
    · simp [List.lookup]
    · have hne : pkg.path ≠ q.path := by
        intro he
        exact hnodup.1 (he ▸ List.mem_map.mpr ⟨pkg, hmem', rfl⟩)
      have : (pkg.path == q.path) = false := by simp [beq_iff_eq, hne]
      simp [List.lookup, this, ih hmem' hnodup.2]

theorem bumpLoop_frame (jumps : String → VersionJump) (pkgs : List TargetPackage)
    (st : BumpState) (path : String) (h : ∀ q ∈ pkgs, q.path ≠ path) :
    ((bumpLoop jumps pkgs st).state.manifests.lookup path = st.manifests.lookup path) ∧
    (∀ w ∈ (bumpLoop jumps pkgs st).state.writes, w.1 = path → w ∈ st.writes) := by
  induction pkgs generalizing st with
  | nil => exact ⟨rfl, fun w hw _ => hw⟩
  | cons pkg rest ih =>
    have hpkg : pkg.path ≠ path := h pkg (List.mem_cons_self _ _)
    have hrest : ∀ q ∈ rest, q.path ≠ path := fun q hq => h q (List.mem_cons_of_mem _ hq)
    simp only [bumpLoop]
    by_cases hp : pkg.content.«private» = true
    · simp only [hp, if_true]
      exact ih st hrest
    · simp only [Bool.not_eq_true] at hp
      simp only [hp, Bool.false_eq_true, if_false]
      by_cases hj : jumps pkg.content.name = VersionJump.none
      · simp only [hj, if_true]
        exact ih st hrest
      · simp only [hj, if_false]
        cases hinc : semverInc pkg.content.version (jumps pkg.content.name) with
        | none => exact ⟨rfl, fun w hw _ => hw⟩
        | some next =>
          set st' : BumpState :=
            { manifests := updateManifest pkg.path next st.manifests
              writes := st.writes ++ [(pkg.path, next)]
              targetVersions := assocSet pkg.content.name next st.targetVersions } with hst'
          refine ⟨?_, ?_⟩
          · rw [(ih st' hrest).1]
            exact lookup_updateManifest_ne (fun he => hpkg he.symm) next st.manifests
          · intro w hw hwp
            have := (ih st' hrest).2 w hw hwp
            rw [hst'] at this
            simp only [List.mem_append, List.mem_singleton] at this
            rcases this with hin | rfl
            · exact hin
            · exact absurd hwp hpkg

theorem semverInc_isSome {s : String} {j : VersionJump}
    (hj : j ≠ VersionJump.none) (hp : (parseSemver s).isSome = true) :
    (semverInc s j).isSome = true := by
  obtain ⟨v, hv⟩ := Option.isSome_iff_exists.mp hp
  cases j with
  | none => exact absurd rfl hj
  | major => simp [semverInc, hv]
  | minor => simp [semverInc, hv]
  | patch => simp [semverInc, hv]

theorem bumpLoop_no_error (jumps : String → VersionJump) (pkgs : List TargetPackage)
    (st : BumpState)
    (hvalid : ∀ q ∈ pkgs, q.content.«private» = false →
        jumps q.content.name ≠ VersionJump.none →
        (parseSemver q.content.version).isSome = true) :
    (bumpLoop jumps pkgs st).error = Option.none := by
  induction pkgs generalizing st with
  | nil => rfl
  | cons pkg rest ih =>
    have hrest : ∀ q ∈ rest, q.content.«private» = false →
        jumps q.content.name ≠ VersionJump.none →
        (parseSemver q.content.version).isSome = true :=
      fun q hq => hvalid q (List.mem_cons_of_mem _ hq)
    simp only [bumpLoop]
    by_cases hp : pkg.content.«private» = true
    · simp only [hp, if_true]
      exact ih st hrest
    · simp only [Bool.not_eq_true] at hp
      simp only [hp, Bool.false_eq_true, if_false]
      by_cases hj : jumps pkg.content.name = VersionJump.none
      · simp only [hj, if_true]
        exact ih st hrest
      · simp only [hj, if_false]
        have hsome := semverInc_isSome hj (hvalid pkg (List.mem_cons_self _ _) hp hj)
        cases hinc : semverInc pkg.content.version (jumps pkg.content.name) with
        | none => rw [hinc] at hsome; simp at hsome
        | some next => exact ih _ hrest

theorem bumpLoop_error_stops (jumps : String → VersionJump) (pre : List TargetPackage)
    (pkg : TargetPackage) (post : List TargetPackage) (st : BumpState)
    (hpre : ∀ q ∈ pre, q.content.«private» = false →
        jumps q.content.name ≠ VersionJump.none →
        (semverInc q.content.version (jumps q.content.name)).isSome = true)
    (hpriv : pkg.content.«private» = false)
    (hjump : jumps pkg.content.name ≠ VersionJump.none)
    (hfail : semverInc pkg.content.version (jumps pkg.content.name) = Option.none) :
    bumpLoop jumps (pre ++ pkg :: post) st =
      ⟨some ("Invalid version jump: " ++ jumpName (jumps pkg.content.name)),
        (bumpLoop jumps pre st).state⟩ ∧
    (bumpLoop jumps pre st).error = Option.none := by
  induction pre generalizing st with
  | nil =>
    refine ⟨?_, rfl⟩
    simp only [List.nil_append, bumpLoop, hpriv, Bool.false_eq_true, if_false, hjump, hfail]
  | cons q pre' ih =>
    have hq := hpre q (List.mem_cons_self _ _)
    have hpre' : ∀ r ∈ pre', r.content.«private» = false →
        jumps r.content.name ≠ VersionJump.none →
        (semverInc r.content.version (jumps r.content.name)).isSome = true :=
      fun r hr => hpre r (List.mem_cons_of_mem _ hr)
    simp only [List.cons_append, bumpLoop]
    by_cases hp : q.content.«private» = true
    · simp only [hp, if_true]
      exact ih st hpre'
    · simp only [Bool.not_eq_true] at hp
      simp only [hp, Bool.false_eq_true, if_false]
      by_cases hj : jumps q.content.name = VersionJump.none
      · simp only [hj, if_true]
        exact ih st hpre'
      · simp only [hj, if_false]
        have hsome := hq hp hj
        cases hinc : semverInc q.content.version (jumps q.content.name) with
        | none => rw [hinc] at hsome; simp at hsome
        | some next => exact ih _ hpre'

theorem bumpLoop_private_frame (jumps jumps' : String → VersionJump)
    (path nm : String) (pkgs : List TargetPackage) (st : BumpState)
    (hpaths : ∀ q ∈ pkgs, q.content.«private» = false → q.path ≠ path)
    (hnames : ∀ q ∈ pkgs, q.content.«private» = false → q.content.name ≠ nm)
    (hagree : ∀ q ∈ pkgs, q.content.«private» = false →
        jumps' q.content.name = jumps q.content.name) :
    ((bumpLoop jumps pkgs st).state.manifests.lookup path = st.manifests.lookup path) ∧
    ((bumpLoop jumps pkgs st).state.targetVersions.lookup nm =
        st.targetVersions.lookup nm) ∧
    (∀ w ∈ (bumpLoop jumps pkgs st).state.writes, w.1 = path → w ∈ st.writes) ∧
    bumpLoop jumps' pkgs st = bumpLoop jumps pkgs st := by
  induction pkgs generalizing st with
  | nil => exact ⟨rfl, rfl, fun w hw _ => hw, rfl⟩
  | cons pkg rest ih =>
    have hrp : ∀ q ∈ rest, q.content.«private» = false → q.path ≠ path :=
      fun q hq => hpaths q (List.mem_cons_of_mem _ hq)
    have hrn : ∀ q ∈ rest, q.content.«private» = false → q.content.name ≠ nm :=
      fun q hq => hnames q (List.mem_cons_of_mem _ hq)
    have hra : ∀ q ∈ rest, q.content.«private» = false →
        jumps' q.content.name = jumps q.content.name :=
      fun q hq => hagree q (List.mem_cons_of_mem _ hq)
    simp only [bumpLoop]
    by_cases hp : pkg.content.«private» = true
    · simp only [hp, if_true]
      exact ih st hrp hrn hra
    · simp only [Bool.not_eq_true] at hp
      have hppath := hpaths pkg (List.mem_cons_self _ _) hp
      have hpname := hnames pkg (List.mem_cons_self _ _) hp
      have hpagree := hagree pkg (List.mem_cons_self _ _) hp
      simp only [hp, Bool.false_eq_true, if_false, hpagree]
      by_cases hj : jumps pkg.content.name = VersionJump.none
      · simp only [hj, if_true]
        exact ih st hrp hrn hra
      · simp only [hj, if_false]
        cases hinc : semverInc pkg.content.version (jumps pkg.content.name) with
        | none => exact ⟨rfl, rfl, fun w hw _ => hw, rfl⟩
        | some next =>
          set st' : BumpState :=
            { manifests := updateManifest pkg.path next st.manifests
              writes := st.writes ++ [(pkg.path, next)]
              targetVersions := assocSet pkg.content.name next st.targetVersions } with hst'
          obtain ⟨ihm, iht, ihw, ihj⟩ := ih st' hrp hrn hra
          refine ⟨?_, ?_, ?_, ihj⟩
          · rw [ihm]
            exact lookup_updateManifest_ne (fun he => hppath he.symm) next st.manifests
          · rw [iht]
            exact lookup_assocSet_ne (fun he => hpname he.symm) next st.targetVersions
          · intro w hw hwp
            have := ihw w hw hwp
            rw [hst'] at this
            simp only [List.mem_append, List.mem_singleton] at this
            rcases this with hin | rfl
            · exact hin
            · exact absurd hwp hppath

theorem semverInc_none_jump (s : String) : semverInc s VersionJump.none = Option.none := by
  unfold semverInc
  cases parseSemver s <;> rfl

theorem bumpLoop_member (jumps : String → VersionJump) (pkgs : List TargetPackage)
    (st : BumpState) (pkg : TargetPackage)
    (hmem : pkg ∈ pkgs)
    (hnodup : (pkgs.map TargetPackage.path).Nodup)
    (hvalid : ∀ q ∈ pkgs, q.content.«private» = false →
        jumps q.content.name ≠ VersionJump.none →
        (parseSemver q.content.version).isSome = true)
    (hst : st.manifests.lookup pkg.path = some pkg.content)
    (hw : ∀ w ∈ st.writes, w.1 ≠ pkg.path)
    (hpriv : pkg.content.«private» = false) :
    (jumps pkg.content.name = VersionJump.none →
        (bumpLoop jumps pkgs st).state.manifests.lookup pkg.path = some pkg.content ∧
        ∀ w ∈ (bumpLoop jumps pkgs st).state.writes, w.1 ≠ pkg.path) ∧
    (∀ next, semverInc pkg.content.version (jumps pkg.content.name) = some next →
        (bumpLoop jumps pkgs st).state.manifests.lookup pkg.path =
          some { pkg.content with version := next }) := by
  induction pkgs generalizing st with
  | nil => simp at hmem
  | cons q rest ih =>
    simp only [List.map_cons, List.nodup_cons] at hnodup
    have hvrest : ∀ r ∈ rest, r.content.«private» = false →
        jumps r.content.name ≠ VersionJump.none →
        (parseSemver r.content.version).isSome = true :=
      fun r hr => hvalid r (List.mem_cons_of_mem _ hr)
    rcases List.mem_cons.mp hmem with rfl | hmem'
    · -- the package itself is at the head of the pass
      have hrestne : ∀ r ∈ rest, r.path ≠ pkg.path := by
        intro r hr he
        exact hnodup.1 (he ▸ List.mem_map.mpr ⟨r, hr, rfl⟩)
      constructor
      · intro hjnone
        simp only [bumpLoop, hpriv, Bool.false_eq_true, if_false, hjnone, if_true]
        obtain ⟨hm, hwfr⟩ := bumpLoop_frame jumps rest st pkg.path hrestne
        refine ⟨hm.trans hst, fun w hwin hwp => absurd hwp (hw w (hwfr w hwin hwp))⟩
      · intro next hnext
        have hjne : jumps pkg.content.name ≠ VersionJump.none := by
          intro hj
          rw [hj, semverInc_none_jump] at hnext
          exact Option.noConfusion hnext
        simp only [bumpLoop, hpriv, Bool.false_eq_true, if_false, hjne, if_false, hnext]
        set st' : BumpState :=
          { manifests := updateManifest pkg.path next st.manifests
            writes := st.writes ++ [(pkg.path, next)]
            targetVersions := assocSet pkg.content.name next st.targetVersions } with hst'
        obtain ⟨hm, -⟩ := bumpLoop_frame jumps rest st' pkg.path hrestne
        rw [hm, hst']
        simp only
        rw [lookup_updateManifest_eq, hst]
        simp [hpriv]
    · -- the package sits further along the pass
      have hqne : q.path ≠ pkg.path := by
        intro he
        exact hnodup.1 (he ▸ List.mem_map.mpr ⟨pkg, hmem', rfl⟩)
      simp only [bumpLoop]
      by_cases hp : q.content.«private» = true
      · simp only [hp, if_true]
        exact ih st hmem' hnodup.2 hvrest hst hw
      · simp only [Bool.not_eq_true] at hp
        simp only [hp, Bool.false_eq_true, if_false]
        by_cases hj : jumps q.content.name = VersionJump.none
        · simp only [hj, if_true]
          exact ih st hmem' hnodup.2 hvrest hst hw
        · simp only [hj, if_false]
          have hsome := semverInc_isSome hj (hvalid q (List.mem_cons_self _ _) hp hj)
          cases hinc : semverInc q.content.version (jumps q.content.name) with
          | none => rw [hinc] at hsome; simp at hsome
          | some next' =>
            set st' : BumpState :=
              { manifests := updateManifest q.path next' st.manifests
                writes := st.writes ++ [(q.path, next')]
                targetVersions := assocSet q.content.name next' st.targetVersions } with hst'
            have hst'lookup : st'.manifests.lookup pkg.path = some pkg.content := by
              rw [hst']
              simp only
              rw [lookup_updateManifest_ne (fun he => hqne he.symm), hst]
            have hw' : ∀ w ∈ st'.writes, w.1 ≠ pkg.path := by
              intro w hwin
              rw [hst'] at hwin
              simp only [List.mem_append, List.mem_singleton] at hwin
              rcases hwin with hin | rfl
              · exact hw w hin
              · exact hqne
            exact ih st' hmem' hnodup.2 hvrest hst'lookup hw'

/-- C3: in the version-bump pass, a chosen `patch`/`minor`/`major` jump
replaces the package's version with the next semantic version (increment the
chosen component, reset the lower ones); a `none` answer leaves the manifest
unchanged and performs no write for that package. -/
theorem bump_respects_semver (pkgs : List TargetPackage) (jumps : String → VersionJump)
    (hnodup : (pkgs.map TargetPackage.path).Nodup)
    (hvalid : ∀ q ∈ pkgs, q.content.«private» = false →
        jumps q.content.name ≠ VersionJump.none →
        (parseSemver q.content.version).isSome = true) :
    (bumpVersion pkgs jumps).error = Option.none ∧
    ∀ pkg ∈ pkgs, pkg.content.«private» = false →
      ((jumps pkg.content.name = VersionJump.none →
          (bumpVersion pkgs jumps).state.manifests.lookup pkg.path = some pkg.content ∧
          ∀ w ∈ (bumpVersion pkgs jumps).state.writes, w.1 ≠ pkg.path) ∧
        (∀ v, parseSemver pkg.content.version = some v →
          (jumps pkg.content.name = VersionJump.patch →
            (bumpVersion pkgs jumps).state.manifests.lookup pkg.path =
              some { pkg.content with
                     version := renderSemver ⟨v.major, v.minor, v.patch + 1⟩ }) ∧
          (jumps pkg.content.name = VersionJump.minor →
            (bumpVersion pkgs jumps).state.manifests.lookup pkg.path =
              some { pkg.content with
                     version := renderSemver ⟨v.major, v.minor + 1, 0⟩ }) ∧
          (jumps pkg.content.name = VersionJump.major →
            (bumpVersion pkgs jumps).state.manifests.lookup pkg.path =
              some { pkg.content with
                     version := renderSemver ⟨v.major + 1, 0, 0⟩ }))) := by
  constructor
  · exact bumpLoop_no_error jumps pkgs _ hvalid
  · intro pkg hmem hpriv
    have hmember := bumpLoop_member jumps pkgs
      { manifests := pkgs.map (fun p => (p.path, p.content))
        writes := []
        targetVersions := pnpmVersions pkgs } pkg hmem hnodup hvalid
      (lookup_map_path hmem hnodup) (by intro w hw; simp at hw) hpriv
    refine ⟨hmember.1, ?_⟩
    intro v hv
    refine ⟨?_, ?_, ?_⟩
    · intro hj
      exact hmember.2 _ (by simp [semverInc, hv, hj])
    · intro hj
      exact hmember.2 _ (by simp [semverInc, hv, hj])
    · intro hj
      exact hmember.2 _ (by simp [semverInc, hv, hj])

/-- C6 counterexample: an invocation of the version-bump command over two
packages errors on the second package, yet the first package's manifest has
already been rewritten on disk — a partial state change persists. -/
theorem bump_not_all_or_nothing_cex :
    (bumpVersion [samplePkgA, samplePkgBad] (fun _ => VersionJump.patch)).error.isSome
        = true ∧
    (bumpVersion [samplePkgA, samplePkgBad]
          (fun _ => VersionJump.patch)).state.manifests.lookup samplePkgA.path =
      some { samplePkgA.content with version := "1.0.1" } ∧
    ({ samplePkgA.content with version := "1.0.1" } : PackageJson) ≠
      samplePkgA.content := by
  decide

/-- C6 (amended): the version-bump pass is not all-or-nothing — when it
throws partway, the invocation stops with exactly the state reached after
the packages already processed, whose manifest rewrites persist; the
packages at and after the failure point are untouched. -/
theorem bump_error_keeps_prior_writes (jumps : String → VersionJump)
    (pre : List TargetPackage) (pkg : TargetPackage) (post : List TargetPackage)
    (st : BumpState)
    (hpre : ∀ q ∈ pre, q.content.«private» = false →
        jumps q.content.name ≠ VersionJump.none →
        (semverInc q.content.version (jumps q.content.name)).isSome = true)
    (hpriv : pkg.content.«private» = false)
    (hjump : jumps pkg.content.name ≠ VersionJump.none)
    (hfail : semverInc pkg.content.version (jumps pkg.content.name) = Option.none) :
    bumpLoop jumps (pre ++ pkg :: post) st =
      ⟨some ("Invalid version jump: " ++ jumpName (jumps pkg.content.name)),
        (bumpLoop jumps pre st).state⟩ ∧
    (bumpLoop jumps pre st).error = Option.none :=
  bumpLoop_error_stops jumps pre pkg post st hpre hpriv hjump hfail

/-- C9: the version-bump pass never consults the prompt for a private
package and leaves it untouched: its manifest on disk and its entry in the
target-versions map are unchanged, no write targets its path, and the
outcome is insensitive to the prompt answer associated with it. -/
theorem bump_ignores_private (pkgs : List TargetPackage)
    (jumps jumps' : String → VersionJump) (pkg : TargetPackage)
    (_hmem : pkg ∈ pkgs) (_hpriv : pkg.content.«private» = true)
    (hpaths : ∀ q ∈ pkgs, q.content.«private» = false → q.path ≠ pkg.path)
    (hnames : ∀ q ∈ pkgs, q.content.«private» = false →
        q.content.name ≠ pkg.content.name)
    (hagree : ∀ q ∈ pkgs, q.content.«private» = false →
        jumps' q.content.name = jumps q.content.name) :
    (bumpVersion pkgs jumps).state.manifests.lookup pkg.path =
      (pkgs.map (fun p => (p.path, p.content))).lookup pkg.path ∧
    (bumpVersion pkgs jumps).state.targetVersions.lookup pkg.content.name =
      (pnpmVersions pkgs).lookup pkg.content.name ∧
    (∀ w ∈ (bumpVersion pkgs jumps).state.writes, w.1 ≠ pkg.path) ∧
    bumpVersion pkgs jumps' = bumpVersion pkgs jumps := by
  obtain ⟨hm, ht, hw, hj⟩ := bumpLoop_private_frame jumps jumps' pkg.path
    pkg.content.name pkgs
    { manifests := pkgs.map (fun p => (p.path, p.content))
      writes := []
      targetVersions := pnpmVersions pkgs } hpaths hnames hagree
  exact ⟨hm, ht, fun w hwin hwp => by simpa using hw w hwin hwp, hj⟩

/-- C1 witness. -/
theorem construct_valid_succeeds_witness :
    validProps propsSample = true ∧
    (∃ out, IntegrationDefinition.construct propsSample = .ok out ∧
      propsSample.name = some out.name ∧ propsSample.version = some out.version ∧
      out.title = propsSample.title ∧ out.description = propsSample.description ∧
      out.icon = propsSample.icon ∧ out.readme = propsSample.readme ∧
      out.configuration = propsSample.configuration.map
        (fun c => { schema := schemaDefinitionToJsonSchema c.schema }) ∧
      out.events = propsSample.events.map (List.map (fun e => (e.1, formatEvent e.2))) ∧
      out.actions = propsSample.actions.map (List.map (fun a => (a.1, formatAction a.2))) ∧
      out.channels = propsSample.channels.map (List.map (fun c => (c.1, formatChannel c.2))) ∧
      out.states = propsSample.states.map (List.map (fun s => (s.1, formatState s.2))) ∧
      out.user = propsSample.user ∧ out.secrets = propsSample.secrets) :=
  ⟨by decide, construct_valid_succeeds propsSample (by decide)⟩

/-- C2 witness. -/
theorem construct_version_gate_witness :
    ∃ issues, IntegrationDefinition.construct propsBadVersion = .error issues ∧
      (⟨["version"], "Invalid enum value"⟩ : ZodIssue) ∈ issues :=
  construct_version_gate.1 propsBadVersion "1.0.0" rfl (by decide)

/-- C3 witness. -/
theorem bump_respects_semver_witness :
    (bumpVersion [samplePkgA] (fun _ => VersionJump.patch)).error = Option.none ∧
    (bumpVersion [samplePkgA] (fun _ => VersionJump.patch)).state.manifests.lookup
        samplePkgA.path =
      some { samplePkgA.content with version := renderSemver ⟨1, 0, 1⟩ } := by
  have h := bump_respects_semver [samplePkgA] (fun _ => VersionJump.patch)
    (by decide) (by decide)
  refine ⟨h.1, ?_⟩
  have h2 := (h.2 samplePkgA (by decide) (by decide)).2 ⟨1, 0, 0⟩ (by decide)
  exact h2.1 rfl

/-- C4 witness. -/
theorem construct_omits_optional_witness :
    (propsMinimal.title = Option.none → outMinimal.title = Option.none) ∧
    (propsMinimal.description = Option.none → outMinimal.description = Option.none) ∧
    (propsMinimal.icon = Option.none → outMinimal.icon = Option.none) ∧
    (propsMinimal.readme = Option.none → outMinimal.readme = Option.none) ∧
    (propsMinimal.configuration = Option.none → outMinimal.configuration = Option.none) ∧
    (propsMinimal.events = Option.none → outMinimal.events = Option.none) ∧
    (propsMinimal.actions = Option.none → outMinimal.actions = Option.none) ∧
    (propsMinimal.channels = Option.none → outMinimal.channels = Option.none) ∧
    (propsMinimal.states = Option.none → outMinimal.states = Option.none) ∧
    (propsMinimal.user = Option.none → outMinimal.user = Option.none) ∧
    (propsMinimal.secrets = Option.none → outMinimal.secrets = Option.none) :=
  construct_omits_optional propsMinimal outMinimal (by decide)

/-- C5 witness. -/
theorem construct_error_identifies_path_witness :
    ([⟨["version"], "Invalid enum value"⟩] : List ZodIssue) ≠ [] ∧
    (∀ i ∈ ([⟨["version"], "Invalid enum value"⟩] : List ZodIssue),
        offendingAt (formatIntegrationDefinition propsBadVersion) i) ∧
    IntegrationDefinition.construct propsBadVersion =
      parseIntegrationDefinition (formatIntegrationDefinition propsBadVersion) :=
  construct_error_identifies_path propsBadVersion
    [⟨["version"], "Invalid enum value"⟩] (by decide)

/-- C6 witness (for the amended theorem). -/
theorem bump_error_keeps_prior_writes_witness :
    bumpLoop (fun _ => VersionJump.patch) [samplePkgA, samplePkgBad] sampleBumpState =
      ⟨some ("Invalid version jump: " ++ jumpName VersionJump.patch),
        (bumpLoop (fun _ => VersionJump.patch) [samplePkgA] sampleBumpState).state⟩ ∧
    (bumpLoop (fun _ => VersionJump.patch) [samplePkgA] sampleBumpState).error =
      Option.none :=
  bump_error_keeps_prior_writes (fun _ => VersionJump.patch) [samplePkgA] samplePkgBad
    [] sampleBumpState (by decide) (by decide) (by decide) (by decide)

/-- C7 witness. -/
theorem construct_validates_once_witness :
    IntegrationDefinition.construct propsMinimal =
      parseIntegrationDefinition (formatIntegrationDefinition propsMinimal) ∧
    parseIntegrationDefinition outMinimal.toInput = .ok outMinimal :=
  construct_validates_once propsMinimal outMinimal (by decide)

/-- C9 witness. -/
theorem bump_ignores_private_witness :
    (bumpVersion [samplePkgA, samplePkgPriv]
          (fun _ => VersionJump.patch)).state.manifests.lookup samplePkgPriv.path =
      ([samplePkgA, samplePkgPriv].map (fun p => (p.path, p.content))).lookup
        samplePkgPriv.path ∧
    (bumpVersion [samplePkgA, samplePkgPriv]
          (fun _ => VersionJump.patch)).state.targetVersions.lookup
        samplePkgPriv.content.name =
      (pnpmVersions [samplePkgA, samplePkgPriv]).lookup samplePkgPriv.content.name ∧
    bumpVersion [samplePkgA, samplePkgPriv]
        (fun n => if n = "pkg-a" then VersionJump.patch else VersionJump.major) =
      bumpVersion [samplePkgA, samplePkgPriv] (fun _ => VersionJump.patch) := by
  have h := bump_ignores_private [samplePkgA, samplePkgPriv]
    (fun _ => VersionJump.patch)
    (fun n => if n = "pkg-a" then VersionJump.patch else VersionJump.major)
    samplePkgPriv (by decide) (by decide) (by decide) (by decide) (by decide)
  exact ⟨h.1, h.2.1, h.2.2.2⟩

/-- C10 witness. -/
theorem construct_channel_min_messages_witness :
    ∃ issues, IntegrationDefinition.construct propsEmptyChannel = .error issues ∧
      (⟨["channels", "general", "messages"],
          "At least 1 item(s) must be defined"⟩ : ZodIssue) ∈ issues :=
  construct_channel_min_messages.1 propsEmptyChannel [("general", emptyChannelDef)]
    "general" emptyChannelDef rfl (by decide) rfl
